import Mathlib

/-!
Verification of the resilient verification/request orchestration layer:
a shallow embedding of `persistent-queue.js`, `proxy-manager.js` and the
`WalletVerificationServiceV2` orchestrator, with theorems settling the
spec claims about them.

Timestamps (`Date.now()`) are modelled as natural numbers of milliseconds;
JS subtractions that may go negative are computed in `Int`.
-/

namespace PLP

/-- Status of a durable queue item: the string field `status` of
`persistent-queue.js` (pending, processing, completed, failed). -/
inductive Status where
  | pending
  | processing
  | completed
  | failed
deriving DecidableEq, Repr

/-- One durable queue entry, as built by `PersistentQueue.add`:
`{ id, data, addedAt, attempts, maxAttempts, lastAttempt, status }`,
plus the fields written later (`completedAt`, `lastError`). -/
structure QueueItem (α : Type) where
  id : String
  data : α
  addedAt : Nat
  attempts : Nat
  maxAttempts : Nat
  lastAttempt : Option Nat
  status : Status
  completedAt : Option Nat
  lastError : Option String
deriving DecidableEq, Repr

/-- The durable queue file on disk: absent, present but unparseable
(`corrupt` carries the items whose serialized bytes were damaged, which
`JSON.parse` can no longer recover), or parseable content. -/
inductive FileState (α : Type) where
  | missing
  | corrupt (lost : List (QueueItem α))
  | content (items : List (QueueItem α))
deriving DecidableEq

/-- In-memory queue (`this.queue`) together with the persisted file. -/
structure QState (α : Type) where
  items : List (QueueItem α)
  file : FileState α
deriving DecidableEq

/-- `loadQueue`: parse the file into `this.queue`; on a missing file or on
a read/parse error, reset the queue to empty and `saveQueue` the empty
list over the file. Returns the loaded in-memory list and the file state
after the load. -/
def loadQueue {α : Type} : FileState α → List (QueueItem α) × FileState α
  | FileState.content items => (items, FileState.content items)
  | FileState.missing => ([], FileState.content [])
  | FileState.corrupt _ => ([], FileState.content [])

/-- In-place mutation of the first list element satisfying `p`, as JS
`Array.prototype.find` followed by mutating the found object. -/
def updateFirst {α : Type} (p : QueueItem α → Bool) (f : QueueItem α → QueueItem α) :
    List (QueueItem α) → List (QueueItem α)
  | [] => []
  | x :: xs => if p x then f x :: xs else x :: updateFirst p f xs

/-- `PersistentQueue.add`: append a fresh pending item (attempts 0,
maxAttempts 3) and persist. The generated id is passed in. -/
def addItem {α : Type} (q : QState α) (newId : String) (now : Nat) (payload : α) :
    String × QState α :=
  let it : QueueItem α :=
    { id := newId, data := payload, addedAt := now, attempts := 0, maxAttempts := 3,
      lastAttempt := none, status := Status.pending, completedAt := none, lastError := none }
  (newId, { items := q.items ++ [it], file := FileState.content (q.items ++ [it]) })

/-- `PersistentQueue.markCompleted`: find by id, set status completed and
`completedAt`, persist; no-op when the id is absent. -/
def markCompleted {α : Type} (q : QState α) (itemId : String) (now : Nat) : QState α :=
  if (q.items.find? (fun it => decide (it.id = itemId))).isSome then
    let items := updateFirst (fun it => decide (it.id = itemId))
      (fun it => { it with status := Status.completed, completedAt := some now }) q.items
    { items := items, file := FileState.content items }
  else q

/-- The mutation `markFailed` applies to the found item: increment
`attempts`, stamp `lastAttempt` and `lastError`, then status failed if
`attempts >= maxAttempts` else back to pending. -/
def failItem {α : Type} (now : Nat) (err : String) (it : QueueItem α) : QueueItem α :=
  if it.attempts + 1 ≥ it.maxAttempts then
    { it with
        attempts := it.attempts + 1
        lastAttempt := some now
        lastError := some err
        status := Status.failed }
  else
    { it with
        attempts := it.attempts + 1
        lastAttempt := some now
        lastError := some err
        status := Status.pending }

/-- `PersistentQueue.markFailed`: find by id, apply `failItem`, persist;
no-op when the id is absent. -/
def markFailed {α : Type} (q : QState α) (itemId : String) (err : String) (now : Nat) :
    QState α :=
  if (q.items.find? (fun it => decide (it.id = itemId))).isSome then
    let items := updateFirst (fun it => decide (it.id = itemId)) (failItem now err) q.items
    { items := items, file := FileState.content items }
  else q

/-- The readiness test of `getNext`: status equals pending and
`attempts < maxAttempts`. -/
def readyPred {α : Type} (it : QueueItem α) : Bool :=
  decide (it.status = Status.pending ∧ it.attempts < it.maxAttempts)

/-- The item `getNext` will pick: first pending item within budget. -/
def nextReady {α : Type} (items : List (QueueItem α)) : Option (QueueItem α) :=
  items.find? readyPred

/-- `PersistentQueue.getNext`: pick the first ready item, mark it
processing with a fresh `lastAttempt`, persist, and return the mutated
item; `none` when no item is ready (no save in that case). -/
def getNext {α : Type} (q : QState α) (now : Nat) : Option (QueueItem α) × QState α :=
  match nextReady q.items with
  | some it =>
    let items := updateFirst readyPred
      (fun x => { x with status := Status.processing, lastAttempt := some now }) q.items
    (some { it with status := Status.processing, lastAttempt := some now },
     { items := items, file := FileState.content items })
  | none => (none, q)

/-- What the registered processor hands back to `processNext`: either a
returned `{ success, error }` object or a thrown exception message. -/
inductive HandlerOutcome where
  | ret (success : Bool) (error : Option String)
  | threw (msg : String)
deriving DecidableEq, Repr

/-- `PersistentQueue.processNext`: dequeue one ready item; on a returned
`{success: true}` mark it completed, on `{success: false}` or a thrown
exception mark it failed (which retries or exhausts). -/
def processNext {α : Type} (q : QState α) (handler : α → HandlerOutcome) (now : Nat) :
    QState α :=
  match getNext q now with
  | (none, q1) => q1
  | (some it, q1) =>
    match handler it.data with
    | HandlerOutcome.ret true _ => markCompleted q1 it.id now
    | HandlerOutcome.ret false err => markFailed q1 it.id (err.getD "Unknown error") now
    | HandlerOutcome.threw msg => markFailed q1 it.id msg now

/-- `PersistentQueue.cleanup`: drop completed items older than one hour;
persist only when something was removed. -/
def cleanup {α : Type} (q : QState α) (now : Nat) : QState α :=
  let keep := q.items.filter (fun it =>
    match it.status, it.completedAt with
    | Status.completed, some c => decide ((c : Int) > (now : Int) - 3600000)
    | _, _ => true)
  if keep.length = q.items.length then q
  else { items := keep, file := FileState.content keep }

/-- Queue statistics by status, as `PersistentQueue.getStats`. -/
structure QueueStats where
  total : Nat
  pending : Nat
  processing : Nat
  completed : Nat
  failed : Nat
deriving DecidableEq, Repr

/-- `PersistentQueue.getStats`: counts of items per status. -/
def getStats {α : Type} (items : List (QueueItem α)) : QueueStats :=
  { total := items.length
    pending := (items.filter (fun it => decide (it.status = Status.pending))).length
    processing := (items.filter (fun it => decide (it.status = Status.processing))).length
    completed := (items.filter (fun it => decide (it.status = Status.completed))).length
    failed := (items.filter (fun it => decide (it.status = Status.failed))).length }

/-- Queue states reachable through the operations the repository actually
drives the queue with: construction with an empty file, `add` (with a
fresh generated id), the ticker `processNext`, the periodic `cleanup`,
and a restart (`loadQueue` of the persisted file). -/
inductive QReach {α : Type} : QState α → Prop where
  | init : QReach { items := [], file := FileState.content [] }
  | add (q : QState α) (i : String) (now : Nat) (d : α)
      (fresh : ∀ it ∈ q.items, it.id ≠ i) :
      QReach q → QReach (addItem q i now d).2
  | tick (q : QState α) (h : α → HandlerOutcome) (now : Nat) :
      QReach q → QReach (processNext q h now)
  | clean (q : QState α) (now : Nat) : QReach q → QReach (cleanup q now)
  | reload (q : QState α) :
      QReach q → QReach { items := (loadQueue q.file).1, file := (loadQueue q.file).2 }

/-- Per-item invariant claimed by the spec data model. -/
def ItemInv {α : Type} (it : QueueItem α) : Prop :=
  it.attempts ≤ it.maxAttempts ∧ (it.status = Status.failed → it.attempts = it.maxAttempts)

/-- Full queue invariant carried through the reachability induction. -/
def QInv {α : Type} (q : QState α) : Prop :=
  q.file = FileState.content q.items ∧
  (q.items.map QueueItem.id).Nodup ∧
  ∀ it ∈ q.items, ItemInv it

/-! ## ProxyManager (proxy-manager.js) -/

/-- One outbound identity as loaded by `ProxyManager.loadProxies`. -/
structure Proxy where
  server : String
  username : String
  password : String
deriving DecidableEq, Repr

/-- The usage-map key built at each use site:
`` `${proxy.server}-${proxy.username}` ``. -/
def proxyKey (p : Proxy) : String := p.server ++ "-" ++ p.username

/-- JS `Map.get`: association-list read, first binding of the key. -/
def assocGet {κ β : Type} [DecidableEq κ] (m : List (κ × β)) (k : κ) : Option β :=
  (m.find? (fun kv => decide (kv.1 = k))).map (fun kv => kv.2)

/-- JS `Map.set`: keys stay unique — replace the binding when present,
append otherwise. -/
def assocSet {κ β : Type} [DecidableEq κ] (m : List (κ × β)) (k : κ) (v : β) :
    List (κ × β) :=
  if (m.find? (fun kv => decide (kv.1 = k))).isSome then
    m.map (fun kv => if kv.1 = k then (k, v) else kv)
  else m ++ [(k, v)]

/-- JS `Map.delete`. -/
def assocDelete {κ β : Type} [DecidableEq κ] (m : List (κ × β)) (k : κ) :
    List (κ × β) :=
  m.filter (fun kv => decide (kv.1 ≠ k))

/-- `this.proxyUsage.get(proxyId) || 0`: last-used read defaulting to 0. -/
def usageGet (m : List (String × Nat)) (k : String) : Nat :=
  (assocGet m k).getD 0

/-- `this.proxyUsage.set(proxyId, now)`. -/
def usageSet (m : List (String × Nat)) (k : String) (v : Nat) : List (String × Nat) :=
  assocSet m k v

/-- `ProxyManager` state: proxy list, usage map, round-robin cursor and
the configured cooldown (76000 ms, or 10000 ms on the fallback pool). -/
structure ProxyManager where
  proxies : List Proxy
  proxyUsage : List (String × Nat)
  currentIndex : Nat
  cooldownPeriod : Nat
deriving DecidableEq

/-- The availability test of the first scan loop:
`now - lastUsed >= cooldownPeriod`, computed as in JS (signed). -/
def proxyAvailable (pm : ProxyManager) (now : Nat) (p : Proxy) : Bool :=
  decide ((pm.cooldownPeriod : Int) ≤ (now : Int) - (usageGet pm.proxyUsage (proxyKey p) : Int))

/-- First loop of `getNextAvailableProxy`: indices scanned in round-robin
order starting at `currentIndex`, first index whose proxy has cleared
cooldown. -/
def availIdx (pm : ProxyManager) (now : Nat) : Option Nat :=
  ((List.range pm.proxies.length).map
      (fun i => (pm.currentIndex + i) % pm.proxies.length)).find?
    (fun idx =>
      match pm.proxies[idx]? with
      | some p => proxyAvailable pm now p
      | none => false)

/-- Second loop of `getNextAvailableProxy`: track the proxy with the
strictly smallest `lastUsed`, seeded with `oldestTime = now` and no
proxy; ties keep the earlier find. -/
def oldestScan (pm : ProxyManager) (now : Nat) : Option Proxy :=
  (pm.proxies.foldl
    (fun acc p =>
      if usageGet pm.proxyUsage (proxyKey p) < acc.1 then
        (usageGet pm.proxyUsage (proxyKey p), some p)
      else acc)
    ((now, none) : Nat × Option Proxy)).2

/-- `ProxyManager.getNextAvailableProxy`: scan for a proxy past cooldown
(marking it used and advancing the cursor); failing that, take the one
with the oldest `lastUsed` (marking it used, cursor untouched); failing
that, fall back to `this.proxies[0]` with no usage update. -/
def getNextAvailableProxy (pm : ProxyManager) (now : Nat) : Option Proxy × ProxyManager :=
  match availIdx pm now with
  | some idx =>
    match pm.proxies[idx]? with
    | some p =>
      (some p,
       { pm with proxyUsage := usageSet pm.proxyUsage (proxyKey p) now,
                 currentIndex := (idx + 1) % pm.proxies.length })
    | none => (none, pm)
  | none =>
    match oldestScan pm now with
    | some p =>
      (some p, { pm with proxyUsage := usageSet pm.proxyUsage (proxyKey p) now })
    | none => (pm.proxies[0]?, pm)

/-! ## VerificationOrchestrator (WalletVerificationServiceV2) -/

/-- The caller-visible verification Result value
`{ verified, reason, hasTokens }`. -/
structure VResult where
  verified : Bool
  reason : String
  hasTokens : Bool
deriving DecidableEq, Repr

/-- Circuit breaker block of the orchestrator constructor, including the
configured limits. -/
structure CircuitBreaker where
  failureCount : Nat
  successCount : Nat
  lastFailureTime : Nat
  isOpen : Bool
  openUntil : Nat
  maxFailures : Nat
  resetTimeout : Nat
  maxQueueSize : Nat
deriving DecidableEq, Repr

/-- Breaker as constructed: closed, no failures, maxFailures 10,
resetTimeout 60000 ms, maxQueueSize 150. -/
def initBreaker : CircuitBreaker :=
  { failureCount := 0, successCount := 0, lastFailureTime := 0, isOpen := false,
    openUntil := 0, maxFailures := 10, resetTimeout := 60000, maxQueueSize := 150 }

/-- Performance counters. The float `averageResponseTime` is derived from
`responseTimes` and never read by the logic, so only the sample window is
carried. -/
structure Metrics where
  totalRequests : Nat
  successfulRequests : Nat
  failedRequests : Nat
  responseTimes : List Nat
deriving DecidableEq, Repr

/-- The payload enqueued per verification request. The JS object carries
`resolve`/`reject` closures of the pending promise; they are modelled as
the id of the promise they settle. -/
structure RequestData where
  username : String
  currentCoinCA : Option String
  cacheKey : String
  pendingKey : String
  promiseId : Nat
deriving DecidableEq, Repr

/-- Whole orchestrator state: proxy pool, durable queue, pending-promise
map, promise store (`none` = unresolved), fresh-promise counter,
holdings cache, breaker and metrics. -/
structure OrchState where
  pm : ProxyManager
  vq : QState RequestData
  pendingResults : List (String × Nat)
  promises : List (Nat × Option VResult)
  nextPromiseId : Nat
  holdingsCache : List (String × VResult × Nat)
  breaker : CircuitBreaker
  metrics : Metrics
deriving DecidableEq

/-- The shared cache and pending key: username, a colon, then the
criterion — or the literal text any when the criterion is null or the
empty string (JS `||` treats both as absent). -/
def keyOf (username : String) (currentCoinCA : Option String) : String :=
  username ++ ":" ++
    (match currentCoinCA with
     | some s => if s = "" then "any" else s
     | none => "any")

/-- Read of the pending-promise map. -/
def pendingGet (m : List (String × Nat)) (k : String) : Option Nat :=
  assocGet m k

/-- `Map.set` on the pending-promise map. -/
def pendingSet (m : List (String × Nat)) (k : String) (v : Nat) : List (String × Nat) :=
  assocSet m k v

/-- `Map.delete` on the pending-promise map. -/
def pendingDelete (m : List (String × Nat)) (k : String) : List (String × Nat) :=
  assocDelete m k

/-- Read of the holdings cache. -/
def cacheGet (c : List (String × VResult × Nat)) (k : String) : Option (VResult × Nat) :=
  assocGet c k

/-- `Map.set` on the holdings cache. -/
def cacheSet (c : List (String × VResult × Nat)) (k : String) (v : VResult × Nat) :
    List (String × VResult × Nat) :=
  assocSet c k v

/-- The fresh-cache test of `verifyUserHoldsTokens`: an entry whose age
`now - timestamp` is under five minutes. -/
def cacheFresh (c : List (String × VResult × Nat)) (k : String) (now : Nat) :
    Option VResult :=
  match cacheGet c k with
  | some rts => if (now : Int) - (rts.2 : Int) < 300000 then some rts.1 else none
  | none => none

/-- Settling a promise: a second resolve of an already settled JS promise
is a no-op. -/
def promiseResolve (ps : List (Nat × Option VResult)) (pid : Nat) (v : VResult) :
    List (Nat × Option VResult) :=
  ps.map (fun kv =>
    if kv.1 = pid then
      match kv.2 with
      | none => (pid, some v)
      | some w => (pid, some w)
    else kv)

/-- Read of the promise store. -/
def promiseGet (ps : List (Nat × Option VResult)) (pid : Nat) : Option (Option VResult) :=
  assocGet ps pid

/-- `isCircuitBreakerOpen`: while open, close (resetting `failureCount`)
once `now > openUntil`; while closed, open (setting
`openUntil = now + resetTimeout`) once `failureCount >= maxFailures`. -/
def isCircuitBreakerOpen (cb : CircuitBreaker) (now : Nat) : Bool × CircuitBreaker :=
  if cb.isOpen then
    if now > cb.openUntil then
      (false, { cb with isOpen := false, failureCount := 0 })
    else (true, cb)
  else if cb.failureCount ≥ cb.maxFailures then
    (true, { cb with isOpen := true, openUntil := now + cb.resetTimeout })
  else (false, cb)

/-- `recordSuccess`: bump success counters and decay `failureCount`
toward 0. -/
def recSuccess (s : OrchState) : OrchState :=
  let s1 := { s with breaker.successCount := s.breaker.successCount + 1,
                     metrics.successfulRequests := s.metrics.successfulRequests + 1 }
  if s1.breaker.failureCount > 0 then
    { s1 with breaker.failureCount := s1.breaker.failureCount - 1 }
  else s1

/-- `recordFailure`: bump `failureCount`, stamp `lastFailureTime`, bump
the failed-request metric. -/
def recFailure (s : OrchState) (now : Nat) : OrchState :=
  { s with breaker.failureCount := s.breaker.failureCount + 1,
           breaker.lastFailureTime := now,
           metrics.failedRequests := s.metrics.failedRequests + 1 }

/-- `recordResponseTime`: push the sample, keep the last 100. -/
def recordResponseTime (s : OrchState) (rt : Nat) : OrchState :=
  let ts := s.metrics.responseTimes ++ [rt]
  { s with metrics.responseTimes := if ts.length > 100 then ts.drop 1 else ts }

/-- The Result returned while the breaker is open. -/
def breakerOpenResult : VResult :=
  { verified := false, reason := "System overloaded - verification temporarily disabled",
    hasTokens := false }

/-- The Result returned on queue backpressure. -/
def queueOverloadResult : VResult :=
  { verified := false, reason := "Verification queue overloaded - try again later",
    hasTokens := false }

/-- How a `verifyUserHoldsTokens` call returns to its caller: fail-fast
Result from the open breaker, fail-fast Result from backpressure, a
fresh cached Result, awaiting an already pending promise, or creating
the pending promise and enqueueing a work item. -/
inductive VerifyOutcome where
  | rejected (r : VResult)
  | overloaded (r : VResult)
  | cached (r : VResult)
  | joined (pid : Nat)
  | enqueued (pid : Nat) (qid : String)
deriving DecidableEq, Repr

/-- `verifyUserHoldsTokens(username, currentCoinCA, forceRefresh)` at
wall-clock `now`; `freshQid` is the id `PersistentQueue.add` will
generate for a newly enqueued item. -/
def verifyUserHoldsTokens (s : OrchState) (username : String)
    (currentCoinCA : Option String) (forceRefresh : Bool) (now : Nat)
    (freshQid : String) : VerifyOutcome × OrchState :=
  let s1 := { s with metrics.totalRequests := s.metrics.totalRequests + 1 }
  let cbres := isCircuitBreakerOpen s1.breaker now
  let s2 := { s1 with breaker := cbres.2 }
  if cbres.1 then
    (VerifyOutcome.rejected breakerOpenResult,
     { s2 with metrics.failedRequests := s2.metrics.failedRequests + 1 })
  else if (getStats s2.vq.items).pending > s2.breaker.maxQueueSize then
    let s3 := recFailure s2 now
    (VerifyOutcome.overloaded queueOverloadResult,
     { s3 with metrics.failedRequests := s3.metrics.failedRequests + 1 })
  else
    let cacheKey := keyOf username currentCoinCA
    match (if forceRefresh then none else cacheFresh s2.holdingsCache cacheKey now) with
    | some r => (VerifyOutcome.cached r, s2)
    | none =>
      match pendingGet s2.pendingResults cacheKey with
      | some pid => (VerifyOutcome.joined pid, s2)
      | none =>
        let pid := s2.nextPromiseId
        let rd : RequestData :=
          { username := username, currentCoinCA := currentCoinCA,
            cacheKey := cacheKey, pendingKey := cacheKey, promiseId := pid }
        (VerifyOutcome.enqueued pid freshQid,
         { s2 with pendingResults := pendingSet s2.pendingResults cacheKey pid,
                   promises := s2.promises ++ [(pid, none)],
                   nextPromiseId := pid + 1,
                   vq := (addItem s2.vq freshQid now rd).2 })

/-- The `{ success, result?, error? }` object `processVerificationRequest`
returns to the queue loop. -/
structure ProcRes where
  success : Bool
  result : Option VResult
  error : Option String
deriving DecidableEq, Repr

/-- `processVerificationRequest(requestData)`: acquire a proxy, run the
probe (`checkUserHoldings`, an external collaborator whose outcome —
returned Result or thrown error message — is the `probe` argument).
On success: record timing/success, write the Result through the cache,
resolve the pending promise, delete the pending entry, return
`{success: true}`. On a thrown probe error: record timing/failure, build
a failed Result, resolve the pending promise with it (never reject),
delete the pending entry, return `{success: false, error}`. -/
def processVerificationRequest (s : OrchState) (rd : RequestData)
    (probe : Except String VResult) (now : Nat) (respTime : Nat) :
    ProcRes × OrchState :=
  let s1 := { s with pm := (getNextAvailableProxy s.pm now).2 }
  match probe with
  | Except.ok result =>
    let s2 := recSuccess (recordResponseTime s1 respTime)
    let s3 := { s2 with
      holdingsCache := cacheSet s2.holdingsCache rd.cacheKey (result, now),
      promises := promiseResolve s2.promises rd.promiseId result }
    ({ success := true, result := some result, error := none },
     { s3 with pendingResults := pendingDelete s3.pendingResults rd.pendingKey })
  | Except.error msg =>
    let s2 := recFailure (recordResponseTime s1 respTime) now
    let failedResult : VResult :=
      { verified := false, reason := "Verification failed: " ++ msg, hasTokens := false }
    let s3 := { s2 with promises := promiseResolve s2.promises rd.promiseId failedResult }
    ({ success := false, result := none, error := some msg },
     { s3 with pendingResults := pendingDelete s3.pendingResults rd.pendingKey })

/-- One tick of the queue loop driving the orchestrator handler:
`getNext`, run `processVerificationRequest` on the dequeued payload, then
`markCompleted` on `{success: true}` and `markFailed` otherwise. The
second component counts probe invocations during the tick (exactly one
when an item is processed). -/
def systemTick (s : OrchState) (probe : Except String VResult) (now : Nat)
    (respTime : Nat) : OrchState × Nat :=
  match getNext s.vq now with
  | (none, vq1) => ({ s with vq := vq1 }, 0)
  | (some it, vq1) =>
    let pr := processVerificationRequest { s with vq := vq1 } it.data probe now respTime
    let s2 := pr.2
    ({ s2 with vq :=
        if pr.1.success then markCompleted s2.vq it.id now
        else markFailed s2.vq it.id (pr.1.error.getD "Unknown error") now }, 1)

/-! ## Association-map lemmas -/

theorem assocGet_cons {κ β : Type} [DecidableEq κ] (a : κ × β) (as : List (κ × β))
    (k2 : κ) : assocGet (a :: as) k2 = if a.1 = k2 then some a.2 else assocGet as k2 := by
  by_cases h : a.1 = k2 <;> simp [assocGet, List.find?_cons, h]

theorem assocGet_nil {κ β : Type} [DecidableEq κ] (k2 : κ) :
    assocGet ([] : List (κ × β)) k2 = none := rfl

theorem assocGet_map_replace {κ β : Type} [DecidableEq κ] (m : List (κ × β)) (k : κ)
    (v : β) (h : (m.find? (fun kv => decide (kv.1 = k))).isSome = true) :
    assocGet (m.map (fun kv => if kv.1 = k then (k, v) else kv)) k = some v := by
  induction m with
  | nil => simp [List.find?] at h
  | cons a as ih =>
    by_cases ha : a.1 = k
    · rw [List.map_cons, if_pos ha, assocGet_cons]
      simp
    · have h2 : (as.find? (fun kv => decide (kv.1 = k))).isSome = true := by
        simpa [List.find?_cons, ha] using h
      rw [List.map_cons, if_neg ha, assocGet_cons, if_neg ha]
      exact ih h2

theorem assocGet_map_replace_other {κ β : Type} [DecidableEq κ] (m : List (κ × β))
    (k k2 : κ) (v : β) (hne : k2 ≠ k) :
    assocGet (m.map (fun kv => if kv.1 = k then (k, v) else kv)) k2 = assocGet m k2 := by
  induction m with
  | nil => rfl
  | cons a as ih =>
    by_cases ha : a.1 = k
    · have hak2 : ¬ a.1 = k2 := fun hc => hne (by rw [← hc, ha])
      rw [List.map_cons, if_pos ha, assocGet_cons, if_neg (Ne.symm hne),
        assocGet_cons, if_neg hak2]
      exact ih
    · rw [List.map_cons, if_neg ha, assocGet_cons, assocGet_cons]
      by_cases ha2 : a.1 = k2
      · rw [if_pos ha2, if_pos ha2]
      · rw [if_neg ha2, if_neg ha2]
        exact ih

theorem assocGet_append_absent {κ β : Type} [DecidableEq κ] (m : List (κ × β)) (k : κ)
    (v : β) (h : m.find? (fun kv => decide (kv.1 = k)) = none) :
    assocGet (m ++ [(k, v)]) k = some v := by
  induction m with
  | nil => simp [assocGet, List.find?_cons]
  | cons a as ih =>
    by_cases ha : a.1 = k
    · simp [List.find?_cons, ha] at h
    · have h2 : as.find? (fun kv => decide (kv.1 = k)) = none := by
        simpa [List.find?_cons, ha] using h
      rw [List.cons_append, assocGet_cons, if_neg ha]
      exact ih h2

theorem assocGet_append_other {κ β : Type} [DecidableEq κ] (m : List (κ × β))
    (k k2 : κ) (v : β) (hne : k2 ≠ k) :
    assocGet (m ++ [(k, v)]) k2 = assocGet m k2 := by
  induction m with
  | nil =>
    rw [List.nil_append, assocGet_cons, if_neg (Ne.symm hne)]
  | cons a as ih =>
    rw [List.cons_append, assocGet_cons, assocGet_cons]
    by_cases ha2 : a.1 = k2
    · rw [if_pos ha2, if_pos ha2]
    · rw [if_neg ha2, if_neg ha2]
      exact ih

theorem assocGet_set_self {κ β : Type} [DecidableEq κ] (m : List (κ × β)) (k : κ)
    (v : β) : assocGet (assocSet m k v) k = some v := by
  unfold assocSet
  by_cases h : (m.find? (fun kv => decide (kv.1 = k))).isSome = true
  · simpa [h] using assocGet_map_replace m k v h
  · have h2 : m.find? (fun kv => decide (kv.1 = k)) = none :=
      Option.not_isSome_iff_eq_none.mp (by simpa using h)
    simpa [h] using assocGet_append_absent m k v h2

theorem assocGet_set_other {κ β : Type} [DecidableEq κ] (m : List (κ × β)) (k k2 : κ)
    (v : β) (hne : k2 ≠ k) : assocGet (assocSet m k v) k2 = assocGet m k2 := by
  unfold assocSet
  by_cases h : (m.find? (fun kv => decide (kv.1 = k))).isSome = true
  · simpa [h] using assocGet_map_replace_other m k k2 v hne
  · simpa [h] using assocGet_append_other m k k2 v hne

theorem assocGet_delete_self {κ β : Type} [DecidableEq κ] (m : List (κ × β)) (k : κ) :
    assocGet (assocDelete m k) k = none := by
  induction m with
  | nil => rfl
  | cons a as ih =>
    by_cases ha : a.1 = k
    · simpa [assocDelete, List.filter_cons, ha] using ih
    · have : assocDelete (a :: as) k = a :: assocDelete as k := by
        simp [assocDelete, List.filter_cons, ha]
      rw [this, assocGet_cons, if_neg ha]
      exact ih

theorem assocGet_delete_other {κ β : Type} [DecidableEq κ] (m : List (κ × β))
    (k k2 : κ) (hne : k2 ≠ k) : assocGet (assocDelete m k) k2 = assocGet m k2 := by
  induction m with
  | nil => rfl
  | cons a as ih =>
    by_cases ha : a.1 = k
    · have hak2 : ¬ a.1 = k2 := fun hc => hne (by rw [← hc, ha])
      have : assocDelete (a :: as) k = assocDelete as k := by
        simp [assocDelete, List.filter_cons, ha]
      rw [this, assocGet_cons, if_neg hak2]
      exact ih
    · have : assocDelete (a :: as) k = a :: assocDelete as k := by
        simp [assocDelete, List.filter_cons, ha]
      rw [this, assocGet_cons, assocGet_cons]
      by_cases ha2 : a.1 = k2
      · rw [if_pos ha2, if_pos ha2]
      · rw [if_neg ha2, if_neg ha2]
        exact ih

theorem promiseGet_resolve_self (ps : List (Nat × Option VResult)) (pid : Nat)
    (v : VResult) (h : promiseGet ps pid = some none) :
    promiseGet (promiseResolve ps pid v) pid = some (some v) := by
  induction ps with
  | nil => simp [promiseGet, assocGet] at h
  | cons a as ih =>
    by_cases ha : a.1 = pid
    · have h2 : a.2 = none := by
        rw [promiseGet, assocGet_cons, if_pos ha] at h
        exact Option.some.inj h
      rw [promiseResolve, List.map_cons, if_pos ha, h2]
      rw [promiseGet, assocGet_cons]
      simp
    · have h2 : promiseGet as pid = some none := by
        rw [promiseGet, assocGet_cons, if_neg ha] at h
        exact h
      rw [promiseResolve, List.map_cons, if_neg ha]
      rw [promiseGet, assocGet_cons, if_neg ha]
      exact ih h2

theorem promiseGet_append_absent (ps : List (Nat × Option VResult)) (pid : Nat)
    (h : promiseGet ps pid = none) :
    promiseGet (ps ++ [(pid, none)]) pid = some none := by
  induction ps with
  | nil => simp [promiseGet, assocGet, List.find?_cons]
  | cons a as ih =>
    by_cases ha : a.1 = pid
    · rw [promiseGet, assocGet_cons, if_pos ha] at h
      exact absurd h (by simp)
    · have h2 : promiseGet as pid = none := by
        rw [promiseGet, assocGet_cons, if_neg ha] at h
        exact h
      rw [List.cons_append, promiseGet, assocGet_cons, if_neg ha]
      exact ih h2

/-! ## Oldest-scan lemmas -/

theorem foldl_oldest_isSome (u : Proxy → Nat) (l : List Proxy) (acc : Nat × Option Proxy)
    (h : acc.2.isSome = true) :
    ((l.foldl (fun acc p => if u p < acc.1 then (u p, some p) else acc) acc).2).isSome
      = true := by
  induction l generalizing acc with
  | nil => exact h
  | cons p l ih =>
    by_cases hu : u p < acc.1
    · simp only [List.foldl_cons, if_pos hu]
      exact ih (u p, some p) rfl
    · simp only [List.foldl_cons, if_neg hu]
      exact ih acc h

theorem foldl_oldest_none (u : Proxy → Nat) (l : List Proxy) (t : Nat)
    (h : ((l.foldl (fun acc p => if u p < acc.1 then (u p, some p) else acc)
        ((t, none) : Nat × Option Proxy)).2) = none) :
    ∀ p ∈ l, t ≤ u p := by
  induction l generalizing t with
  | nil => intro p hp; cases hp
  | cons q l ih =>
    by_cases hu : u q < t
    · exfalso
      have := foldl_oldest_isSome u l (u q, some q) rfl
      simp only [List.foldl_cons, if_pos hu] at h
      rw [h] at this
      cases this
    · simp only [List.foldl_cons, if_neg hu] at h
      intro p hp
      cases hp with
      | head => exact Nat.le_of_not_lt hu
      | tail _ hmem => exact ih t h p hmem

theorem oldestScan_none (pm : ProxyManager) (now : Nat)
    (h : oldestScan pm now = none) :
    ∀ p ∈ pm.proxies, now ≤ usageGet pm.proxyUsage (proxyKey p) :=
  foldl_oldest_none (fun p => usageGet pm.proxyUsage (proxyKey p)) pm.proxies now h

/-! ## C10 -/

/-- C10: when the persisted queue file exists but cannot be read or
parsed, `loadQueue` resets the in-memory queue to empty and immediately
saves the empty list over the durable file, regardless of which items the
damaged file previously encoded — they are all dropped, with no error
surfaced. -/
theorem C10_corrupt_load_resets {α : Type} (lost : List (QueueItem α)) :
    loadQueue (FileState.corrupt lost) = ([], FileState.content ([] : List (QueueItem α))) :=
  rfl

/-! ## C2 -/

/-- An item persisted mid-flight with status processing, attempts 1. -/
def procItem : QueueItem Nat :=
  { id := "w1", data := 0, addedAt := 0, attempts := 1, maxAttempts := 3,
    lastAttempt := some 10, status := Status.processing, completedAt := none,
    lastError := none }

/-- C2 counterexample: a queue file holding one item whose persisted
status is processing reloads with that item still in status processing —
`loadQueue` performs no processing-to-pending reconciliation. -/
theorem C2_processing_survives_reload :
    (loadQueue (FileState.content [procItem])).1 = [procItem] ∧
    procItem.status = Status.processing ∧ procItem.status ≠ Status.pending :=
  ⟨rfl, rfl, by decide⟩

/-- C2 amended: reloading the queue from a parseable file loses no item —
the persisted items are returned verbatim — but statuses are also kept
verbatim, so an item persisted as processing stays processing; since the
`getNext` readiness test requires status pending, such an item is never
dequeued again. -/
theorem C2_reload_verbatim {α : Type} (items : List (QueueItem α)) :
    loadQueue (FileState.content items) = (items, FileState.content items) ∧
    ∀ it : QueueItem α, it.status = Status.processing → readyPred it = false := by
  refine ⟨rfl, fun it h => ?_⟩
  exact decide_eq_false (fun hc => by rw [h] at hc; exact absurd hc.1 (by decide))

/-- Witness for C2 amended at the concrete processing item. -/
theorem C2_reload_verbatim_witness :
    loadQueue (FileState.content [procItem]) = ([procItem], FileState.content [procItem]) ∧
    readyPred procItem = false :=
  ⟨(C2_reload_verbatim [procItem]).1, (C2_reload_verbatim [procItem]).2 procItem rfl⟩

/-! ## C3 -/

/-- The single proxy of the C3 counterexample pool. -/
def cexProxy : Proxy := { server := "s", username := "u", password := "w" }

/-- A pool whose only proxy was last used at time 100, observed at the
earlier clock reading 50 (`Date.now()` is wall clock and can regress). -/
def cexPM : ProxyManager :=
  { proxies := [cexProxy], proxyUsage := [(proxyKey cexProxy, 100)],
    currentIndex := 0, cooldownPeriod := 76000 }

/-- C3 counterexample: on the fallback path (no proxy past cooldown and
none with `lastUsed` strictly below `now`), `getNextAvailableProxy`
returns `proxies[0]` without touching the usage map: the returned
identity keeps `lastUsedAt = 100`, not the current time 50. -/
theorem C3_fallback_skips_usage_update :
    (getNextAvailableProxy cexPM 50).1 = some cexProxy ∧
    usageGet (getNextAvailableProxy cexPM 50).2.proxyUsage (proxyKey cexProxy) = 100 ∧
    (100 : Nat) ≠ 50 := by
  refine ⟨by decide, by decide, by decide⟩

/-- C3 amended: on a non-empty pool `getNextAvailableProxy` always
returns some identity; and whenever any proxy has `lastUsed < now` (in
particular whenever the wall clock has not regressed below every
recorded use), the usage entry of the returned identity is set to the
current time. Only on the degenerate fallback path — every recorded
`lastUsed` at or above `now` — is the usage map left untouched. -/
theorem C3_acquire_total (pm : ProxyManager) (now : Nat) (hne : pm.proxies ≠ []) :
    ∃ p, (getNextAvailableProxy pm now).1 = some p ∧
      ((∃ q ∈ pm.proxies, usageGet pm.proxyUsage (proxyKey q) < now) →
        usageGet (getNextAvailableProxy pm now).2.proxyUsage (proxyKey p) = now) := by
  match h1 : availIdx pm now with
  | some idx =>
    have hpred := List.find?_some h1
    match h2 : pm.proxies[idx]? with
    | some p =>
      refine ⟨p, ?_, fun _ => ?_⟩
      · simp [getNextAvailableProxy, h1, h2]
      · simp only [getNextAvailableProxy, h1, h2]
        simp [usageGet, usageSet, assocGet_set_self]
    | none =>
      rw [h2] at hpred
      cases hpred
  | none =>
    match h3 : oldestScan pm now with
    | some p =>
      refine ⟨p, ?_, fun _ => ?_⟩
      · simp [getNextAvailableProxy, h1, h3]
      · simp only [getNextAvailableProxy, h1, h3]
        simp [usageGet, usageSet, assocGet_set_self]
    | none =>
      match h4 : pm.proxies with
      | [] => exact absurd h4 hne
      | p0 :: rest =>
        refine ⟨p0, ?_, fun hex => ?_⟩
        · simp [getNextAvailableProxy, h1, h3, h4]
        · exfalso
          obtain ⟨q, hqmem, hqlt⟩ := hex
          exact absurd hqlt
            (Nat.not_lt.mpr (oldestScan_none pm now h3 q (by rw [h4]; exact hqmem)))

/-- Witness for C3 amended: a fresh pool at time 200000 — the proxy is
returned and its usage stamped. -/
theorem C3_acquire_total_witness :
    ∃ p, (getNextAvailableProxy cexPM 200000).1 = some p ∧
      ((∃ q ∈ cexPM.proxies, usageGet cexPM.proxyUsage (proxyKey q) < 200000) →
        usageGet (getNextAvailableProxy cexPM 200000).2.proxyUsage (proxyKey p) = 200000) :=
  C3_acquire_total cexPM 200000 (by decide)


/-! ## Verify-branch reduction lemmas -/

theorem isCBO_closed (cb : CircuitBreaker) (now : Nat) (hclosed : cb.isOpen = false)
    (hfc : cb.failureCount < cb.maxFailures) :
    isCircuitBreakerOpen cb now = (false, cb) := by
  unfold isCircuitBreakerOpen
  rw [hclosed]
  simp [Nat.not_le.mpr hfc]

/-- The orchestrator state after only the `totalRequests` bump. -/
def bumpTotal (s : OrchState) : OrchState :=
  { s with metrics.totalRequests := s.metrics.totalRequests + 1 }

/-- With the breaker closed under its threshold and the queue within
bounds, `verifyUserHoldsTokens` reaches the cache/dedup/enqueue stages. -/
theorem verify_guarded (s : OrchState) (u : String) (ca : Option String) (fr : Bool)
    (now : Nat) (qid : String)
    (hclosed : s.breaker.isOpen = false)
    (hfc : s.breaker.failureCount < s.breaker.maxFailures)
    (hqp : (getStats s.vq.items).pending ≤ s.breaker.maxQueueSize) :
    verifyUserHoldsTokens s u ca fr now qid =
      match (if fr then none else cacheFresh s.holdingsCache (keyOf u ca) now) with
      | some r => (VerifyOutcome.cached r, bumpTotal s)
      | none =>
        match pendingGet s.pendingResults (keyOf u ca) with
        | some pid => (VerifyOutcome.joined pid, bumpTotal s)
        | none =>
          (VerifyOutcome.enqueued s.nextPromiseId qid,
           { bumpTotal s with
               pendingResults := pendingSet s.pendingResults (keyOf u ca) s.nextPromiseId,
               promises := s.promises ++ [(s.nextPromiseId, none)],
               nextPromiseId := s.nextPromiseId + 1,
               vq := (addItem s.vq qid now
                 { username := u, currentCoinCA := ca, cacheKey := keyOf u ca,
                   pendingKey := keyOf u ca, promiseId := s.nextPromiseId }).2 }) := by
  have hq2 : ¬ ((getStats s.vq.items).pending > s.breaker.maxQueueSize) :=
    Nat.not_lt.mpr hqp
  unfold verifyUserHoldsTokens
  simp only [isCBO_closed s.breaker now hclosed hfc, hq2, bumpTotal]
  rfl

theorem nextReady_append_ready {α : Type} (items : List (QueueItem α)) (it : QueueItem α)
    (hnone : nextReady items = none) (hready : readyPred it = true) :
    nextReady (items ++ [it]) = some it := by
  unfold nextReady at hnone ⊢
  induction items with
  | nil => simp [List.find?_cons, hready]
  | cons a as ih =>
    by_cases hpa : readyPred a = true
    · rw [List.find?_cons_of_pos _ hpa] at hnone
      cases hnone
    · rw [List.find?_cons_of_neg _ hpa] at hnone
      rw [List.cons_append, List.find?_cons_of_neg _ hpa]
      exact ih hnone

/-! ## C8 -/

/-- C8: with the breaker closed and the queue inside its bound, a Verify
call with `forceRefresh = false` whose cache entry for the key was
written at time `ts` returns that cached Result verbatim — touching
nothing but the `totalRequests` counter, so no enqueue and no probe —
whenever `now - ts < 300000` (the five-minute TTL); once
`now - ts ≥ 300000` the entry is ignored: with no pending request for
the key the call enqueues a fresh work item, and the next queue tick
performs exactly one probe invocation on it. -/
theorem C8_cache_ttl (s : OrchState) (u : String) (ca : Option String)
    (now ts : Nat) (r : VResult) (qid : String)
    (hclosed : s.breaker.isOpen = false)
    (hfc : s.breaker.failureCount < s.breaker.maxFailures)
    (hqp : (getStats s.vq.items).pending ≤ s.breaker.maxQueueSize)
    (hcache : cacheGet s.holdingsCache (keyOf u ca) = some (r, ts)) :
    ((now : Int) - (ts : Int) < 300000 →
      verifyUserHoldsTokens s u ca false now qid = (VerifyOutcome.cached r, bumpTotal s)) ∧
    (300000 ≤ (now : Int) - (ts : Int) →
      pendingGet s.pendingResults (keyOf u ca) = none →
      (verifyUserHoldsTokens s u ca false now qid).1 =
        VerifyOutcome.enqueued s.nextPromiseId qid ∧
      ∀ (probe : Except String VResult) (now2 rt : Nat),
        nextReady s.vq.items = none →
        (systemTick (verifyUserHoldsTokens s u ca false now qid).2 probe now2 rt).2 = 1) := by
  rw [verify_guarded s u ca false now qid hclosed hfc hqp]
  constructor
  · intro hfresh
    simp only [if_neg (by simp : ¬ false = true), cacheFresh, hcache, if_pos hfresh]
  · intro hstale hpend
    have hcf : cacheFresh s.holdingsCache (keyOf u ca) now = none := by
      simp only [cacheFresh, hcache]
      exact if_neg (Int.not_lt.mpr hstale)
    simp only [if_neg (by simp : ¬ false = true), hcf, hpend]
    refine ⟨by trivial, fun probe now2 rt hnr => ?_⟩
    have hready : nextReady ((addItem s.vq qid now
        { username := u, currentCoinCA := ca, cacheKey := keyOf u ca,
          pendingKey := keyOf u ca, promiseId := s.nextPromiseId }).2.items) =
        some { id := qid,
               data := { username := u, currentCoinCA := ca, cacheKey := keyOf u ca,
                         pendingKey := keyOf u ca, promiseId := s.nextPromiseId },
               addedAt := now, attempts := 0, maxAttempts := 3, lastAttempt := none,
               status := Status.pending, completedAt := none, lastError := none } := by
      exact nextReady_append_ready s.vq.items _ hnr rfl
    simp only [systemTick, getNext, hready]

/-- Empty request queue. -/
def emptyQ : QState RequestData := { items := [], file := FileState.content [] }

/-- Metrics as constructed. -/
def initMetrics : Metrics :=
  { totalRequests := 0, successfulRequests := 0, failedRequests := 0, responseTimes := [] }

/-- A successful verification Result used in concrete states. -/
def okR : VResult := { verified := true, reason := "ok", hasTokens := true }

/-- Concrete state with a cache entry for key `u:any` written at 1000. -/
def s8 : OrchState :=
  { pm := cexPM, vq := emptyQ, pendingResults := [], promises := [], nextPromiseId := 0,
    holdingsCache := [("u:any", (okR, 1000))], breaker := initBreaker,
    metrics := initMetrics }

/-- Witness for C8 at `s8`, `now = 1500` (age 500 ms — fresh). -/
theorem C8_cache_ttl_witness :
    ((1500 : Int) - (1000 : Int) < 300000 →
      verifyUserHoldsTokens s8 "u" none false 1500 "q1" =
        (VerifyOutcome.cached okR, bumpTotal s8)) ∧
    (300000 ≤ (1500 : Int) - (1000 : Int) →
      pendingGet s8.pendingResults (keyOf "u" none) = none →
      (verifyUserHoldsTokens s8 "u" none false 1500 "q1").1 =
        VerifyOutcome.enqueued s8.nextPromiseId "q1" ∧
      ∀ (probe : Except String VResult) (now2 rt : Nat),
        nextReady s8.vq.items = none →
        (systemTick (verifyUserHoldsTokens s8 "u" none false 1500 "q1").2 probe now2 rt).2
          = 1) :=
  C8_cache_ttl s8 "u" none 1500 1000 okR "q1" rfl (by decide) (by decide) (by decide)

/-! ## C9 -/

/-- Request payload for key `u:any`, promise 0. -/
def rd9 : RequestData :=
  { username := "u", currentCoinCA := none, cacheKey := "u:any", pendingKey := "u:any",
    promiseId := 0 }

/-- Concrete state: pending request and unresolved promise for `u:any`,
plus a pre-existing cache entry from time 10. -/
def s9 : OrchState :=
  { pm := cexPM, vq := emptyQ, pendingResults := [("u:any", 0)],
    promises := [(0, none)], nextPromiseId := 1,
    holdingsCache := [("u:any", (okR, 10))], breaker := initBreaker,
    metrics := initMetrics }

/-- The run of the C9 counterexample: the probe of a (forced-refresh or
not) execution for `u:any` throws at time 20. -/
def c9run : ProcRes × OrchState :=
  processVerificationRequest s9 rd9 (Except.error "net down") 20 5

/-- The failed Result that execution resolves its callers with. -/
def c9failed : VResult :=
  { verified := false, reason := "Verification failed: net down", hasTokens := false }

/-- C9 counterexample: when the execution fails, its result is NOT
written through to the cache: the promise resolves with the failed
Result, yet the cache still holds the old entry `(okR, 10)` — later
callers see the stale entry, not the refreshed outcome. -/
theorem C9_failure_not_written_through :
    c9run.1.success = false ∧
    promiseGet c9run.2.promises 0 = some (some c9failed) ∧
    cacheGet c9run.2.holdingsCache "u:any" = some (okR, 10) ∧
    okR ≠ c9failed := by
  refine ⟨by decide, by decide, by decide, by decide⟩

/-- `recordResponseTime` leaves everything but the metrics alone. -/
theorem recordResponseTime_cache (s : OrchState) (rt : Nat) :
    (recordResponseTime s rt).holdingsCache = s.holdingsCache := rfl

/-- `recordSuccess` leaves the cache alone. -/
theorem recSuccess_cache (s : OrchState) :
    (recSuccess s).holdingsCache = s.holdingsCache := by
  unfold recSuccess
  rw [apply_ite OrchState.holdingsCache]
  simp

/-- C9 amended: a Verify call with `forceRefresh = true` never returns a
cached value — its outcome is never the `cached` one, whatever the state
holds; and on a successful execution the Result is written through to the
cache under the request key. On a failed execution, however, the cache is
left untouched (the failed Result is only handed to the awaiting
callers), as the counterexample shows. -/
theorem C9_force_refresh_bypass :
    (∀ (s : OrchState) (u : String) (ca : Option String) (now : Nat) (qid : String)
       (r : VResult),
      (verifyUserHoldsTokens s u ca true now qid).1 ≠ VerifyOutcome.cached r) ∧
    (∀ (s : OrchState) (rd : RequestData) (result : VResult) (now rt : Nat),
      cacheGet (processVerificationRequest s rd (Except.ok result) now rt).2.holdingsCache
        rd.cacheKey = some (result, now)) ∧
    (∀ (s : OrchState) (rd : RequestData) (msg : String) (now rt : Nat),
      (processVerificationRequest s rd (Except.error msg) now rt).2.holdingsCache =
        s.holdingsCache) := by
  refine ⟨fun s u ca now qid r => ?_, fun s rd result now rt => ?_,
    fun s rd msg now rt => ?_⟩
  · unfold verifyUserHoldsTokens
    by_cases hcb : (isCircuitBreakerOpen s.breaker now).1 = true
    · simp [hcb]
    · by_cases hbp :
          (getStats s.vq.items).pending > (isCircuitBreakerOpen s.breaker now).2.maxQueueSize
      · simp [hcb, hbp]
      · cases hpg : pendingGet s.pendingResults (keyOf u ca) <;>
          simp [hcb, hbp, hpg]
  · unfold processVerificationRequest
    exact assocGet_set_self _ _ _
  · unfold processVerificationRequest
    rfl

/-- Witness for C9 amended at the concrete state `s9`. -/
theorem C9_force_refresh_bypass_witness :
    (verifyUserHoldsTokens s9 "u" none true 20 "q1").1 ≠ VerifyOutcome.cached okR ∧
    cacheGet (processVerificationRequest s9 rd9 (Except.ok okR) 20 5).2.holdingsCache
      rd9.cacheKey = some (okR, 20) :=
  ⟨C9_force_refresh_bypass.1 s9 "u" none 20 "q1" okR,
   C9_force_refresh_bypass.2.1 s9 rd9 okR 20 5⟩

/-! ## C5 -/

/-- C5: with the breaker closed (and under its failure threshold), a
Verify call that finds `pending > maxQueueSize` returns the distinct
overload Result and changes nothing except bumping `totalRequests`,
`failureCount` (by exactly one — the rejection that counts toward
opening the breaker), `lastFailureTime`, and `failedRequests` (twice: once
inside `recordFailure` and once at the call site); in particular no item
is enqueued and no pending request is created. By contrast the
breaker-open rejection path leaves `failureCount` untouched. -/
theorem C5_backpressure (s : OrchState) (u : String) (ca : Option String) (fr : Bool)
    (now : Nat) (qid : String)
    (hclosed : s.breaker.isOpen = false)
    (hfc : s.breaker.failureCount < s.breaker.maxFailures)
    (hover : (getStats s.vq.items).pending > s.breaker.maxQueueSize) :
    verifyUserHoldsTokens s u ca fr now qid =
      (VerifyOutcome.overloaded queueOverloadResult,
       { s with breaker.failureCount := s.breaker.failureCount + 1,
                breaker.lastFailureTime := now,
                metrics.totalRequests := s.metrics.totalRequests + 1,
                metrics.failedRequests := s.metrics.failedRequests + 2 }) ∧
    (∀ (s2 : OrchState) (u2 : String) (ca2 : Option String) (fr2 : Bool)
       (now2 : Nat) (qid2 : String),
      s2.breaker.isOpen = true → now2 ≤ s2.breaker.openUntil →
      verifyUserHoldsTokens s2 u2 ca2 fr2 now2 qid2 =
        (VerifyOutcome.rejected breakerOpenResult,
         { s2 with metrics.totalRequests := s2.metrics.totalRequests + 1,
                   metrics.failedRequests := s2.metrics.failedRequests + 1 })) := by
  constructor
  · unfold verifyUserHoldsTokens
    simp only [isCBO_closed s.breaker now hclosed hfc, hover, if_true,
      Bool.false_eq_true, if_false]
    rfl
  · intro s2 u2 ca2 fr2 now2 qid2 hopen hwait
    unfold verifyUserHoldsTokens
    have hcb : isCircuitBreakerOpen s2.breaker now2 = (true, s2.breaker) := by
      unfold isCircuitBreakerOpen
      rw [hopen]
      simp [Nat.not_lt.mpr hwait]
    simp only [hcb]
    rfl

/-- A queued item for the C5 witness state. -/
def item5 : QueueItem RequestData :=
  { id := "q0", data := rd9, addedAt := 0, attempts := 0, maxAttempts := 3,
    lastAttempt := none, status := Status.pending, completedAt := none, lastError := none }

/-- C5 witness state: one pending item against `maxQueueSize = 0`. -/
def s5 : OrchState :=
  { pm := cexPM, vq := { items := [item5], file := FileState.content [item5] },
    pendingResults := [], promises := [], nextPromiseId := 0, holdingsCache := [],
    breaker := { initBreaker with maxQueueSize := 0 }, metrics := initMetrics }

/-- Witness for C5 at the concrete overloaded state `s5`. -/
theorem C5_backpressure_witness :
    verifyUserHoldsTokens s5 "u" none false 7 "q1" =
      (VerifyOutcome.overloaded queueOverloadResult,
       { s5 with breaker.failureCount := s5.breaker.failureCount + 1,
                 breaker.lastFailureTime := 7,
                 metrics.totalRequests := s5.metrics.totalRequests + 1,
                 metrics.failedRequests := s5.metrics.failedRequests + 2 }) :=
  (C5_backpressure s5 "u" none false 7 "q1" rfl (by decide) (by decide)).1

/-! ## C4 -/

/-- `isCircuitBreakerOpen` flips a closed breaker at its threshold. -/
theorem isCBO_opens (cb : CircuitBreaker) (now : Nat) (hclosed : cb.isOpen = false)
    (hfc : cb.failureCount ≥ cb.maxFailures) :
    isCircuitBreakerOpen cb now =
      (true, { cb with isOpen := true, openUntil := now + cb.resetTimeout }) := by
  unfold isCircuitBreakerOpen
  rw [hclosed]
  simp [hfc]

/-- `isCircuitBreakerOpen` closes an expired open breaker. -/
theorem isCBO_reset (cb : CircuitBreaker) (now : Nat) (hopen : cb.isOpen = true)
    (hexp : now > cb.openUntil) :
    isCircuitBreakerOpen cb now = (false, { cb with isOpen := false, failureCount := 0 }) := by
  unfold isCircuitBreakerOpen
  rw [hopen]
  simp [hexp]

/-- C4: the circuit-breaker cycle. (1) While open with `now ≤ openUntil`,
every Verify call returns the overload Result touching only the two
request metrics — no probe, no enqueue, no breaker change. (2) A check
finding the breaker closed with `failureCount ≥ maxFailures` opens it,
setting `openUntil = now + resetTimeout`, and rejects the same way.
(3) The first check with `now > openUntil` closes the breaker and resets
`failureCount` to 0. (4) After that reset, a call finding queue capacity
and no pending entry proceeds to enqueue — probes resume. (5) n
consecutive `recordFailure` calls add exactly n to `failureCount`, so
`maxFailures` consecutive recorded failures reach the threshold.
(6) The configured constants are `maxFailures = 10`,
`resetTimeout = 60000` ms. -/
theorem C4_breaker_cycle :
    (∀ (s : OrchState) (u : String) (ca : Option String) (fr : Bool) (now : Nat)
       (qid : String),
      s.breaker.isOpen = true → now ≤ s.breaker.openUntil →
      verifyUserHoldsTokens s u ca fr now qid =
        (VerifyOutcome.rejected breakerOpenResult,
         { s with metrics.totalRequests := s.metrics.totalRequests + 1,
                  metrics.failedRequests := s.metrics.failedRequests + 1 })) ∧
    (∀ (s : OrchState) (u : String) (ca : Option String) (fr : Bool) (now : Nat)
       (qid : String),
      s.breaker.isOpen = false → s.breaker.failureCount ≥ s.breaker.maxFailures →
      verifyUserHoldsTokens s u ca fr now qid =
        (VerifyOutcome.rejected breakerOpenResult,
         { s with breaker.isOpen := true,
                  breaker.openUntil := now + s.breaker.resetTimeout,
                  metrics.totalRequests := s.metrics.totalRequests + 1,
                  metrics.failedRequests := s.metrics.failedRequests + 1 })) ∧
    (∀ (cb : CircuitBreaker) (now : Nat), cb.isOpen = true → now > cb.openUntil →
      isCircuitBreakerOpen cb now =
        (false, { cb with isOpen := false, failureCount := 0 })) ∧
    (∀ (s : OrchState) (u : String) (ca : Option String) (now : Nat) (qid : String),
      s.breaker.isOpen = true → now > s.breaker.openUntil →
      (getStats s.vq.items).pending ≤ s.breaker.maxQueueSize →
      pendingGet s.pendingResults (keyOf u ca) = none →
      (verifyUserHoldsTokens s u ca true now qid).1 =
        VerifyOutcome.enqueued s.nextPromiseId qid ∧
      (verifyUserHoldsTokens s u ca true now qid).2.breaker.isOpen = false ∧
      (verifyUserHoldsTokens s u ca true now qid).2.breaker.failureCount = 0) ∧
    (∀ (s : OrchState) (t n : Nat),
      ((fun st => recFailure st t)^[n] s).breaker.failureCount =
        s.breaker.failureCount + n) ∧
    (initBreaker.maxFailures = 10 ∧ initBreaker.resetTimeout = 60000) := by
  refine ⟨?_, ?_, ?_, ?_, ?_, rfl, rfl⟩
  · intro s u ca fr now qid hopen hwait
    unfold verifyUserHoldsTokens
    have hcb : isCircuitBreakerOpen s.breaker now = (true, s.breaker) := by
      unfold isCircuitBreakerOpen
      rw [hopen]
      simp [Nat.not_lt.mpr hwait]
    simp only [hcb]
    rfl
  · intro s u ca fr now qid hclosed hfc
    unfold verifyUserHoldsTokens
    simp only [isCBO_opens s.breaker now hclosed hfc]
    rfl
  · intro cb now hopen hexp
    exact isCBO_reset cb now hopen hexp
  · intro s u ca now qid hopen hexp hqp hpend
    unfold verifyUserHoldsTokens
    have hq2 : ¬ ((getStats s.vq.items).pending > s.breaker.maxQueueSize) :=
      Nat.not_lt.mpr hqp
    simp only [isCBO_reset s.breaker now hopen hexp, hq2, Bool.false_eq_true, if_false,
      hpend]
    exact ⟨by trivial, rfl, rfl⟩
  · intro s t n
    induction n with
    | zero => rfl
    | succ n ih =>
      rw [Function.iterate_succ_apply']
      show ((fun st => recFailure st t) (_ : OrchState)).breaker.failureCount = _
      rw [show ∀ st : OrchState, (recFailure st t).breaker.failureCount =
          st.breaker.failureCount + 1 from fun st => rfl]
      rw [ih, Nat.add_assoc]

/-- C4 witness state: breaker open until 100 with 10 failures. -/
def s4 : OrchState :=
  { pm := cexPM, vq := emptyQ, pendingResults := [], promises := [], nextPromiseId := 0,
    holdingsCache := [],
    breaker := { initBreaker with isOpen := true, openUntil := 100, failureCount := 10 },
    metrics := initMetrics }

/-- Witness for C4 at the open breaker state `s4`, `now = 50 ≤ 100`. -/
theorem C4_breaker_cycle_witness :
    verifyUserHoldsTokens s4 "u" none false 50 "q1" =
      (VerifyOutcome.rejected breakerOpenResult,
       { s4 with metrics.totalRequests := s4.metrics.totalRequests + 1,
                 metrics.failedRequests := s4.metrics.failedRequests + 1 }) :=
  C4_breaker_cycle.1 s4 "u" none false 50 "q1" rfl (by decide)

/-! ## C1 -/

/-- `recordResponseTime` leaves the promise store alone. -/
theorem recordResponseTime_promises (s : OrchState) (rt : Nat) :
    (recordResponseTime s rt).promises = s.promises := rfl

/-- `recordSuccess` leaves the promise store alone. -/
theorem recSuccess_promises (s : OrchState) :
    (recSuccess s).promises = s.promises := by
  unfold recSuccess
  rw [apply_ite OrchState.promises]
  simp

/-- The failed Result built for a thrown probe error `msg`. -/
def failedResultOf (msg : String) : VResult :=
  { verified := false, reason := "Verification failed: " ++ msg, hasTokens := false }

/-- Concrete C1 state: one queued verification for `u:any` awaiting
promise 0. -/
def s1c : OrchState :=
  { pm := cexPM, vq := { items := [item5], file := FileState.content [item5] },
    pendingResults := [("u:any", 0)], promises := [(0, none)], nextPromiseId := 1,
    holdingsCache := [], breaker := initBreaker, metrics := initMetrics }

/-- One queue tick on `s1c` whose probe throws. -/
def c1run : OrchState × Nat := systemTick s1c (Except.error "net down") 30 5

/-- C1 counterexample: the probe failure is returned to the queue as
`{success: false}`, so the tick marks the item failed: its `attempts`
rises from 0 to 1 and its status goes back to pending — the queue WILL
re-run the probe as a queue retry, contrary to the claim that the
handler always reports success for probe-level failures. -/
theorem C1_probe_failure_is_queue_failure :
    (processVerificationRequest s1c item5.data (Except.error "net down") 30 5).1.success
      = false ∧
    (c1run.1.vq.items.map (fun it => (it.status, it.attempts))) =
      [(Status.pending, 1)] ∧
    c1run.2 = 1 ∧
    (nextReady c1run.1.vq.items).isSome = true := by
  refine ⟨by decide, by decide, by decide, by decide⟩

/-- C1 amended: on a probe failure the orchestrator does absorb the
failure for the CALLER — the handler never rejects: it resolves the
pending promise with a failed Result carrying the error reason and
deletes the pending entry — but it returns `{success: false}` to the
queue, so the DurableWorkQueue treats the probe failure as a handler
failure: it increments the item attempts and re-runs the probe on later
ticks until the retry budget is exhausted (as the counterexample run
shows concretely). -/
theorem C1_probe_failure_absorbed_for_caller :
    (∀ (s : OrchState) (rd : RequestData) (msg : String) (now rt : Nat),
      (processVerificationRequest s rd (Except.error msg) now rt).1 =
        { success := false, result := none, error := some msg } ∧
      pendingGet (processVerificationRequest s rd (Except.error msg) now rt).2.pendingResults
        rd.pendingKey = none ∧
      (promiseGet s.promises rd.promiseId = some none →
        promiseGet
          (processVerificationRequest s rd (Except.error msg) now rt).2.promises
          rd.promiseId = some (some (failedResultOf msg)))) ∧
    ((c1run.1.vq.items.map (fun it => (it.status, it.attempts))) =
       [(Status.pending, 1)] ∧
     promiseGet c1run.1.promises 0 = some (some (failedResultOf "net down"))) := by
  refine ⟨fun s rd msg now rt => ⟨rfl, ?_, fun hunres => ?_⟩, by decide, by decide⟩
  · unfold processVerificationRequest
    exact assocGet_delete_self _ _
  · unfold processVerificationRequest
    exact promiseGet_resolve_self _ _ _ hunres

/-- Witness for C1 amended at the concrete failing run. -/
theorem C1_probe_failure_absorbed_witness :
    (processVerificationRequest s1c item5.data (Except.error "net down") 30 5).1 =
      { success := false, result := none, error := some "net down" } ∧
    promiseGet
      (processVerificationRequest s1c item5.data (Except.error "net down") 30 5).2.promises
      item5.data.promiseId = some (some (failedResultOf "net down")) :=
  ⟨(C1_probe_failure_absorbed_for_caller.1 s1c item5.data "net down" 30 5).1,
   (C1_probe_failure_absorbed_for_caller.1 s1c item5.data "net down" 30 5).2.2 (by decide)⟩

/-! ## C6 -/

/-- Fresh orchestrator state for the single-flight scenario. -/
def s6 : OrchState :=
  { pm := cexPM, vq := emptyQ, pendingResults := [], promises := [], nextPromiseId := 0,
    holdingsCache := [], breaker := initBreaker, metrics := initMetrics }

/-- First Verify call for key `u:any` (no cache, no pending). -/
def c6call1 : VerifyOutcome × OrchState := verifyUserHoldsTokens s6 "u" none false 10 "qa"

/-- Second Verify call for the same key while the first is in flight. -/
def c6call2 : VerifyOutcome × OrchState :=
  verifyUserHoldsTokens c6call1.2 "u" none false 11 "qb"

/-- First queue tick with a throwing probe. -/
def c6failTick1 : OrchState × Nat := systemTick c6call2.2 (Except.error "boom") 12 3

/-- Second queue tick, probe throwing again. -/
def c6failTick2 : OrchState × Nat := systemTick c6failTick1.1 (Except.error "boom") 13 3

/-- First queue tick with a succeeding probe. -/
def c6okTick1 : OrchState × Nat := systemTick c6call2.2 (Except.ok okR) 12 3

/-- Second queue tick after the success. -/
def c6okTick2 : OrchState × Nat := systemTick c6okTick1.1 (Except.ok okR) 13 3

/-- C6 counterexample: two Verify calls for the identical key share one
work item (the second joins, enqueueing nothing), yet when the probe
fails the queue re-runs it: both the first and the second tick perform a
probe invocation — two probe invocations for N = 2 deduplicated callers,
refuting "exactly one Probe invocation occurs". -/
theorem C6_failing_probe_runs_twice :
    c6call1.1 = VerifyOutcome.enqueued 0 "qa" ∧
    c6call2.1 = VerifyOutcome.joined 0 ∧
    c6call2.2.vq.items.length = 1 ∧
    c6failTick1.2 = 1 ∧
    c6failTick2.2 = 1 := by
  refine ⟨by decide, by decide, by decide, by decide, by decide⟩

/-- C6 amended: single-flight holds at the request layer — (1) a Verify
call finding a pending entry for its key joins it: it returns the very
promise id stored there and changes nothing but `totalRequests` (no
second entry, no enqueue, no probe); (2) a call finding no entry creates
exactly one entry, one unresolved promise and one work item; (3) when
the execution resolves — success or failure — the pending entry for the
key is deleted and the shared promise is resolved exactly once, with the
probe Result on success, so every joined caller reads the identical
value. But the probe runs once per queue attempt: exactly once overall
only when it succeeds (the concrete run: one probe then none); a failing
probe is re-run by the queue, as the counterexample shows. -/
theorem C6_single_flight :
    (∀ (s : OrchState) (u : String) (ca : Option String) (fr : Bool) (now : Nat)
       (qid : String) (pid : Nat),
      s.breaker.isOpen = false →
      s.breaker.failureCount < s.breaker.maxFailures →
      (getStats s.vq.items).pending ≤ s.breaker.maxQueueSize →
      (fr = true ∨ cacheFresh s.holdingsCache (keyOf u ca) now = none) →
      pendingGet s.pendingResults (keyOf u ca) = some pid →
      verifyUserHoldsTokens s u ca fr now qid = (VerifyOutcome.joined pid, bumpTotal s)) ∧
    (∀ (s : OrchState) (u : String) (ca : Option String) (fr : Bool) (now : Nat)
       (qid : String),
      s.breaker.isOpen = false →
      s.breaker.failureCount < s.breaker.maxFailures →
      (getStats s.vq.items).pending ≤ s.breaker.maxQueueSize →
      (fr = true ∨ cacheFresh s.holdingsCache (keyOf u ca) now = none) →
      pendingGet s.pendingResults (keyOf u ca) = none →
      promiseGet s.promises s.nextPromiseId = none →
      (verifyUserHoldsTokens s u ca fr now qid).1 =
        VerifyOutcome.enqueued s.nextPromiseId qid ∧
      pendingGet (verifyUserHoldsTokens s u ca fr now qid).2.pendingResults
        (keyOf u ca) = some s.nextPromiseId ∧
      promiseGet (verifyUserHoldsTokens s u ca fr now qid).2.promises
        s.nextPromiseId = some none ∧
      (verifyUserHoldsTokens s u ca fr now qid).2.vq.items.length =
        s.vq.items.length + 1) ∧
    (∀ (s : OrchState) (rd : RequestData) (r : VResult) (now rt : Nat),
      pendingGet
        (processVerificationRequest s rd (Except.ok r) now rt).2.pendingResults
        rd.pendingKey = none ∧
      (promiseGet s.promises rd.promiseId = some none →
        promiseGet (processVerificationRequest s rd (Except.ok r) now rt).2.promises
          rd.promiseId = some (some r))) ∧
    (c6okTick1.2 = 1 ∧ c6okTick2.2 = 0 ∧
     promiseGet c6okTick1.1.promises 0 = some (some okR) ∧
     pendingGet c6okTick1.1.pendingResults "u:any" = none) := by
  refine ⟨fun s u ca fr now qid pid hclosed hfc hqp hbyp hpend => ?_,
    fun s u ca fr now qid hclosed hfc hqp hbyp hpend hfreshp => ?_,
    fun s rd r now rt => ⟨?_, fun hunres => ?_⟩,
    by decide, by decide, by decide, by decide⟩
  · rw [verify_guarded s u ca fr now qid hclosed hfc hqp]
    have hscrut : (if fr then none else cacheFresh s.holdingsCache (keyOf u ca) now)
        = none := by
      rcases hbyp with h | h
      · rw [h]
        rfl
      · cases fr
        · simpa using h
        · rfl
    rw [hscrut, hpend]
  · rw [verify_guarded s u ca fr now qid hclosed hfc hqp]
    have hscrut : (if fr then none else cacheFresh s.holdingsCache (keyOf u ca) now)
        = none := by
      rcases hbyp with h | h
      · rw [h]
        rfl
      · cases fr
        · simpa using h
        · rfl
    rw [hscrut, hpend]
    refine ⟨rfl, ?_, ?_, ?_⟩
    · exact assocGet_set_self _ _ _
    · exact promiseGet_append_absent _ _ hfreshp
    · show (s.vq.items ++ [_]).length = s.vq.items.length + 1
      rw [List.length_append]
      rfl
  · unfold processVerificationRequest
    exact assocGet_delete_self _ _
  · unfold processVerificationRequest
    simp only [recSuccess_promises, recordResponseTime_promises]
    exact promiseGet_resolve_self _ _ _ hunres

/-- Witness for C6 at the concrete in-flight state: the second caller
joins promise 0 and changes nothing but the request counter. -/
theorem C6_single_flight_witness :
    verifyUserHoldsTokens c6call1.2 "u" none false 11 "qb" =
      (VerifyOutcome.joined 0, bumpTotal c6call1.2) :=
  C6_single_flight.1 c6call1.2 "u" none false 11 "qb" 0 (by decide) (by decide)
    (by decide) (Or.inr (by decide)) (by decide)

/-! ## C7: list surgery and queue invariants -/

theorem find?_split {α : Type} (p : QueueItem α → Bool) (l : List (QueueItem α))
    (x : QueueItem α) (h : l.find? p = some x) :
    ∃ l1 l2, l = l1 ++ x :: l2 ∧ ∀ y ∈ l1, p y = false := by
  induction l with
  | nil => cases h
  | cons a as ih =>
    by_cases hp : p a = true
    · rw [List.find?_cons_of_pos _ hp] at h
      refine ⟨[], as, ?_, fun y hy => absurd hy (List.not_mem_nil y)⟩
      rw [Option.some.inj h]
      rfl
    · rw [List.find?_cons_of_neg _ hp] at h
      obtain ⟨l1, l2, heq, hall⟩ := ih h
      refine ⟨a :: l1, l2, by rw [heq]; rfl, fun y hy => ?_⟩
      cases hy with
      | head =>
        cases hpa : p a with
        | true => exact absurd hpa hp
        | false => rfl
      | tail _ hmem => exact hall y hmem

theorem updateFirst_split {α : Type} (p : QueueItem α → Bool)
    (f : QueueItem α → QueueItem α) (l1 l2 : List (QueueItem α)) (x : QueueItem α)
    (hall : ∀ y ∈ l1, p y = false) (hx : p x = true) :
    updateFirst p f (l1 ++ x :: l2) = l1 ++ f x :: l2 := by
  induction l1 with
  | nil => simp [updateFirst, hx]
  | cons a l1 ih =>
    have ha : p a = false := hall a (List.mem_cons_self a l1)
    rw [List.cons_append, updateFirst, ha]
    simp only [Bool.false_eq_true, if_false, List.cons_append, List.cons.injEq, true_and]
    exact ih (fun y hy => hall y (List.mem_cons_of_mem a hy))

theorem find?_append_first {α : Type} (p : QueueItem α → Bool)
    (l1 l2 : List (QueueItem α)) (x : QueueItem α)
    (hall : ∀ y ∈ l1, p y = false) (hx : p x = true) :
    (l1 ++ x :: l2).find? p = some x := by
  induction l1 with
  | nil => rw [List.nil_append, List.find?_cons_of_pos _ hx]
  | cons a l1 ih =>
    have ha : ¬ p a = true := by
      rw [hall a (List.mem_cons_self a l1)]
      exact Bool.false_ne_true
    rw [List.cons_append, List.find?_cons_of_neg _ ha]
    exact ih (fun y hy => hall y (List.mem_cons_of_mem a hy))

theorem updateFirst_map_id {α : Type} (p : QueueItem α → Bool)
    (f : QueueItem α → QueueItem α) (hf : ∀ y : QueueItem α, (f y).id = y.id)
    (l : List (QueueItem α)) :
    (updateFirst p f l).map QueueItem.id = l.map QueueItem.id := by
  induction l with
  | nil => rfl
  | cons a as ih =>
    by_cases hp : p a = true
    · rw [updateFirst, if_pos hp, List.map_cons, List.map_cons, hf]
    · rw [updateFirst, if_neg hp, List.map_cons, List.map_cons, ih]

/-- The item-state after `getNext` marks an item processing. -/
def procMark {α : Type} (now : Nat) (x : QueueItem α) : QueueItem α :=
  { x with status := Status.processing, lastAttempt := some now }

theorem failItem_id {α : Type} (now : Nat) (err : String) (it : QueueItem α) :
    (failItem now err it).id = it.id := by
  unfold failItem
  by_cases h : it.attempts + 1 ≥ it.maxAttempts
  · rw [if_pos h]
  · rw [if_neg h]

/-- The final state of the processed item after one `processNext` tick. -/
def tickResult {α : Type} (x : QueueItem α) (o : HandlerOutcome) (now : Nat) :
    QueueItem α :=
  match o with
  | HandlerOutcome.ret true _ =>
    { procMark now x with status := Status.completed, completedAt := some now }
  | HandlerOutcome.ret false err => failItem now (err.getD "Unknown error") (procMark now x)
  | HandlerOutcome.threw msg => failItem now msg (procMark now x)

theorem tickResult_id {α : Type} (x : QueueItem α) (o : HandlerOutcome) (now : Nat) :
    (tickResult x o now).id = x.id := by
  cases o with
  | ret success err =>
    cases success
    · exact failItem_id now _ (procMark now x)
    · rfl
  | threw msg => exact failItem_id now msg (procMark now x)

theorem markCompleted_eq {α : Type} (fs : FileState α) (l1 l2 : List (QueueItem α))
    (x : QueueItem α) (now : Nat) (hid : ∀ y ∈ l1, y.id ≠ x.id) :
    markCompleted ⟨l1 ++ x :: l2, fs⟩ x.id now =
      ⟨l1 ++ { x with status := Status.completed, completedAt := some now } :: l2,
       FileState.content
         (l1 ++ { x with status := Status.completed, completedAt := some now } :: l2)⟩ := by
  have hall : ∀ y ∈ l1, (fun it => decide (it.id = x.id)) y = false :=
    fun y hy => decide_eq_false (hid y hy)
  have hx : (fun it => decide (it.id = x.id)) x = true := by simp
  unfold markCompleted
  rw [show (⟨l1 ++ x :: l2, fs⟩ : QState α).items = l1 ++ x :: l2 from rfl,
    find?_append_first _ l1 l2 x hall hx]
  simp only [Option.isSome_some, if_true]
  rw [updateFirst_split _ _ l1 l2 x hall hx]

theorem markFailed_eq {α : Type} (fs : FileState α) (l1 l2 : List (QueueItem α))
    (x : QueueItem α) (err : String) (now : Nat) (hid : ∀ y ∈ l1, y.id ≠ x.id) :
    markFailed ⟨l1 ++ x :: l2, fs⟩ x.id err now =
      ⟨l1 ++ failItem now err x :: l2,
       FileState.content (l1 ++ failItem now err x :: l2)⟩ := by
  have hall : ∀ y ∈ l1, (fun it => decide (it.id = x.id)) y = false :=
    fun y hy => decide_eq_false (hid y hy)
  have hx : (fun it => decide (it.id = x.id)) x = true := by simp
  unfold markFailed
  rw [show (⟨l1 ++ x :: l2, fs⟩ : QState α).items = l1 ++ x :: l2 from rfl,
    find?_append_first _ l1 l2 x hall hx]
  simp only [Option.isSome_some, if_true]
  rw [updateFirst_split _ _ l1 l2 x hall hx]

theorem getNext_char {α : Type} (q : QState α) (x : QueueItem α) (now : Nat)
    (hx : nextReady q.items = some x) (l1 l2 : List (QueueItem α))
    (heq : q.items = l1 ++ x :: l2) (hall : ∀ y ∈ l1, readyPred y = false) :
    getNext q now =
      (some (procMark now x),
       ⟨l1 ++ procMark now x :: l2, FileState.content (l1 ++ procMark now x :: l2)⟩) := by
  have hx2 : q.items.find? readyPred = some x := hx
  have hxr : readyPred x = true := List.find?_some hx2
  unfold getNext
  rw [hx, heq, updateFirst_split readyPred _ l1 l2 x hall hxr]
  rfl

theorem processNext_char {α : Type} (q : QState α) (x : QueueItem α)
    (hnodup : (q.items.map QueueItem.id).Nodup)
    (hx : nextReady q.items = some x) (handler : α → HandlerOutcome) (now : Nat) :
    ∃ l1 l2, q.items = l1 ++ x :: l2 ∧ (∀ y ∈ l1, readyPred y = false) ∧
      processNext q handler now =
        ⟨l1 ++ tickResult x (handler x.data) now :: l2,
         FileState.content (l1 ++ tickResult x (handler x.data) now :: l2)⟩ := by
  obtain ⟨l1, l2, heq, hall⟩ := find?_split readyPred q.items x hx
  refine ⟨l1, l2, heq, hall, ?_⟩
  have hid : ∀ y ∈ l1, y.id ≠ x.id := by
    intro y hy hc
    rw [heq] at hnodup
    have hdisj := List.disjoint_of_nodup_append (by
      simpa using hnodup)
    exact hdisj (List.mem_map_of_mem QueueItem.id hy)
      (by rw [hc]; exact List.mem_cons_self _ _)
  have hgn := getNext_char q x now hx l1 l2 heq hall
  have hid2 : ∀ y ∈ l1, y.id ≠ (procMark now x).id := hid
  unfold processNext
  simp only [hgn]
  cases ho : handler x.data with
  | ret success err =>
    have ho2 : handler (procMark now x).data = HandlerOutcome.ret success err := ho
    cases success
    · simp only [ho2]
      rw [markFailed_eq _ l1 l2 (procMark now x) (err.getD "Unknown error") now hid2]
      rfl
    · simp only [ho2]
      rw [markCompleted_eq _ l1 l2 (procMark now x) now hid2]
      rfl
  | threw msg =>
    have ho2 : handler (procMark now x).data = HandlerOutcome.threw msg := ho
    simp only [ho2]
    rw [markFailed_eq _ l1 l2 (procMark now x) msg now hid2]
    rfl

theorem failItem_inv {α : Type} (it : QueueItem α) (now : Nat) (err : String)
    (hlt : it.attempts < it.maxAttempts) : ItemInv (failItem now err it) := by
  unfold failItem
  by_cases hge : it.attempts + 1 ≥ it.maxAttempts
  · rw [if_pos hge]
    exact ⟨Nat.succ_le_of_lt hlt, fun _ => Nat.le_antisymm (Nat.succ_le_of_lt hlt) hge⟩
  · rw [if_neg hge]
    exact ⟨Nat.succ_le_of_lt hlt, fun hc => Status.noConfusion hc⟩

theorem tickResult_inv {α : Type} (x : QueueItem α) (o : HandlerOutcome) (now : Nat)
    (hlt : x.attempts < x.maxAttempts) : ItemInv (tickResult x o now) := by
  cases o with
  | ret success err =>
    cases success
    · exact failItem_inv (procMark now x) now _ hlt
    · exact ⟨Nat.le_of_lt hlt, fun hc => Status.noConfusion hc⟩
  | threw msg => exact failItem_inv (procMark now x) now msg hlt

theorem qinv_processNext {α : Type} (q : QState α) (hinv : QInv q)
    (handler : α → HandlerOutcome) (now : Nat) : QInv (processNext q handler now) := by
  cases hx : nextReady q.items with
  | none =>
    have : processNext q handler now = q := by
      unfold processNext getNext
      rw [hx]
    rw [this]
    exact hinv
  | some x =>
    obtain ⟨l1, l2, heq, _, hres⟩ := processNext_char q x hinv.2.1 hx handler now
    rw [hres]
    set tr := tickResult x (handler x.data) now with htr
    refine ⟨rfl, ?_, ?_⟩
    · have hids : (l1 ++ tr :: l2).map QueueItem.id = q.items.map QueueItem.id := by
        rw [heq]
        simp only [List.map_append, List.map_cons]
        rw [show tr.id = x.id from htr ▸ tickResult_id x (handler x.data) now]
      rw [hids]
      exact hinv.2.1
    · intro it hmem
      have hx3 : q.items.find? readyPred = some x := hx
      have hrx : readyPred x = true := List.find?_some hx3
      have hrxd : decide (x.status = Status.pending ∧ x.attempts < x.maxAttempts) = true :=
        hrx
      have hrx2 : x.status = Status.pending ∧ x.attempts < x.maxAttempts :=
        of_decide_eq_true hrxd
      rcases List.mem_append.mp hmem with h1 | h2
      · exact hinv.2.2 it (by rw [heq]; exact List.mem_append_left _ h1)
      · rcases List.mem_cons.mp h2 with hit | h3
        · rw [hit]
          exact tickResult_inv x (handler x.data) now hrx2.2
        · exact hinv.2.2 it
            (by rw [heq]; exact List.mem_append_right _ (List.mem_cons_of_mem x h3))

theorem qinv_add {α : Type} (q : QState α) (hinv : QInv q) (i : String) (now : Nat)
    (d : α) (fresh : ∀ it ∈ q.items, it.id ≠ i) : QInv (addItem q i now d).2 := by
  refine ⟨rfl, ?_, ?_⟩
  · rw [show (addItem q i now d).2.items = q.items ++
      [{ id := i, data := d, addedAt := now, attempts := 0, maxAttempts := 3,
         lastAttempt := none, status := Status.pending, completedAt := none,
         lastError := none }] from rfl]
    rw [List.map_append]
    refine List.Nodup.append hinv.2.1 (List.nodup_singleton i) ?_
    intro a ha hb
    obtain ⟨it, hit, hida⟩ := List.mem_map.mp ha
    have hai : a = i := List.mem_singleton.mp hb
    exact fresh it hit (hida.trans hai)
  · intro it hmem
    rcases List.mem_append.mp hmem with h1 | h2
    · exact hinv.2.2 it h1
    · rw [List.mem_singleton.mp h2]
      exact ⟨Nat.zero_le 3, fun hc => Status.noConfusion hc⟩

theorem qinv_cleanup {α : Type} (q : QState α) (hinv : QInv q) (now : Nat) :
    QInv (cleanup q now) := by
  unfold cleanup
  by_cases hlen : (q.items.filter (fun it =>
      match it.status, it.completedAt with
      | Status.completed, some c => decide ((c : Int) > (now : Int) - 3600000)
      | _, _ => true)).length = q.items.length
  · rw [if_pos hlen]
    exact hinv
  · rw [if_neg hlen]
    refine ⟨rfl, ?_, ?_⟩
    · exact List.Nodup.sublist (List.Sublist.map QueueItem.id (List.filter_sublist _))
        hinv.2.1
    · intro it hmem
      exact hinv.2.2 it (List.filter_sublist _ |>.mem hmem)

theorem qinv_reach {α : Type} (q : QState α) (h : QReach q) : QInv q := by
  induction h with
  | init => exact ⟨rfl, List.nodup_nil, fun it h => absurd h (List.not_mem_nil it)⟩
  | add q i now d fresh _ ih => exact qinv_add q ih i now d fresh
  | tick q handler now _ ih => exact qinv_processNext q ih handler now
  | clean q now _ ih => exact qinv_cleanup q ih now
  | reload q _ ih =>
    rw [show ({ items := (loadQueue q.file).1, file := (loadQueue q.file).2 } : QState α)
        = ⟨(loadQueue q.file).1, (loadQueue q.file).2⟩ from rfl, ih.1]
    exact ⟨rfl, ih.2.1, ih.2.2⟩

/-! ## C7 -/

/-- One tick whose handler always reports failure. -/
def failTick (q : QState Nat) : QState Nat :=
  processNext q (fun _ => HandlerOutcome.ret false (some "err")) 5

/-- A queue holding one freshly added item. -/
def q7start : QState Nat :=
  (addItem { items := [], file := FileState.content [] } "a" 0 7).2

/-- C7: retry exhaustion. (1) In every reachable queue state, every item
has `attempts ≤ maxAttempts`, and status failed forces
`attempts = maxAttempts` exactly. (2) `getNext` only ever selects an
item that is pending and under budget — a failed item is never selected
again. (3) Concretely, an item whose handler fails three consecutive
times ends failed with attempts exactly 3 and the queue has nothing left
to select. -/
theorem C7_retry_exhaustion :
    (∀ (α : Type) (q : QState α), QReach q → ∀ it ∈ q.items,
      it.attempts ≤ it.maxAttempts ∧
      (it.status = Status.failed → it.attempts = it.maxAttempts)) ∧
    (∀ (α : Type) (items : List (QueueItem α)) (x : QueueItem α),
      nextReady items = some x →
      x.status = Status.pending ∧ x.attempts < x.maxAttempts) ∧
    ((failTick (failTick (failTick q7start))).items.map
        (fun it => (it.status, it.attempts)) = [(Status.failed, 3)] ∧
     nextReady (failTick (failTick (failTick q7start))).items = none) := by
  refine ⟨fun α q h => (qinv_reach q h).2.2, fun α items x hx => ?_, by decide, by decide⟩
  have hx2 : items.find? readyPred = some x := hx
  have hr : readyPred x = true := List.find?_some hx2
  have hr2 : decide (x.status = Status.pending ∧ x.attempts < x.maxAttempts) = true := hr
  exact of_decide_eq_true hr2

/-- Witness for C7: the invariant at a state reached by one add and one
failing tick. -/
theorem C7_retry_exhaustion_witness :
    ∀ it ∈ (failTick q7start).items,
      it.attempts ≤ it.maxAttempts ∧
      (it.status = Status.failed → it.attempts = it.maxAttempts) :=
  C7_retry_exhaustion.1 Nat (failTick q7start)
    (QReach.tick q7start _ 5
      (QReach.add ⟨[], FileState.content []⟩ "a" 0 7
        (fun it h => absurd h (List.not_mem_nil it)) QReach.init))

end PLP
